import Mathlib

/-!
# Verification of the ATS log-field marshal/unmarshal codec (`proxy/logging/LogAccess.cc`)

This development shallowly embeds the marshal (encode) and unmarshal (decode)
routines of the logging codec and proves the specification's claims about them.

Modelling conventions:
* A byte buffer is a `List Char`; the NUL byte is `Char.ofNat 0`.
* C `int` lengths/capacities are Lean `Int` (so the `-1` sentinel is representable);
  list lengths are `Nat` and are cast where compared.
* A destination buffer is represented by the list of bytes actually written to it
  (always a contiguous run starting at destination offset 0 in these routines).
* Marshal functions take a `Bool` standing for "destination pointer is non-null"
  (query-length mode vs fill mode) and return the length together with the bytes
  written (empty in query mode).
* The encoded-integer stream read by `unmarshal_int` is modelled as a `List Int`:
  each element is one 8-byte aligned little-endian int64 cell of the marshal buffer.
-/

namespace ATSLog

/-- The NUL byte. -/
def nulChar : Char := Char.ofNat 0

/-- Modelled from the spec: the alignment unit (`INK_MIN_ALIGN`, §3 "Alignment
unit": a fixed byte boundary of 8 bytes); the macro lives in a header that is
not part of the sampled sources. -/
def INK_MIN_ALIGN : Nat := 8

/-- Modelled from the spec: `INK_ALIGN_DEFAULT` — round a byte count up to the
next multiple of the 8-byte alignment unit. -/
def alignDefault (n : Nat) : Nat := (n + 7) / 8 * 8

/-- Modelled from the spec: `LogAccess::round_strlen` (header helper), which is
`INK_ALIGN_DEFAULT` applied to a length. -/
def round_strlen (n : Nat) : Nat := alignDefault n

/-- Modelled from the spec: the fixed default marker string `DEFAULT_STR` ("-")
substituted for a null/empty source string before encoding (§4.1 "a null/empty
source string is replaced by a fixed default marker string"). -/
def DEFAULT_STR : List Char := ['-']

/-- The bytes of a C string: everything before the first NUL (what `::strlen`
measures and `memcpy`/`strlcpy` of a terminated string would read). -/
def cstr : List Char → List Char
  | [] => []
  | c :: cs => if c = nulChar then [] else c :: cstr cs

/-- Modelled from the spec: the bytes `ink_strlcpy dst src siz` writes into
`dst` — at most `siz - 1` source bytes plus a terminating NUL (BSD `strlcpy`;
`tscore/ink_string.h` is not part of the sampled sources). Writes nothing when
`siz = 0`. -/
def ink_strlcpy_writes (src : List Char) (siz : Nat) : List Char :=
  if siz = 0 then [] else src.take (siz - 1) ++ [nulChar]

/-- ASCII digit for `d < 10`. -/
def digitChar (d : Nat) : Char := Char.ofNat (48 + d)

/-- Digit-emission loop: peel decimal digits of `n` onto the front of `acc`
(least significant digit first, so the result reads most significant first).
`fuel` bounds the recursion; `natDecChars` supplies enough fuel that the loop
always terminates by the `n < 10` test, exactly like the do/while loop of
`unmarshal_itoa`. -/
def natDecAux : Nat → Nat → List Char → List Char
  | 0, _, acc => acc
  | fuel + 1, n, acc =>
    if n < 10 then digitChar n :: acc
    else natDecAux fuel (n / 10) (digitChar (n % 10) :: acc)

/-- Decimal digits of a natural number, most significant first (always at
least one digit — this matches the do/while loop of `unmarshal_itoa` and the
`%d` family of printf conversions). -/
def natDecChars (n : Nat) : List Char := natDecAux (n + 1) n []

/-- Decimal rendering of an integer: optional minus sign then digits
(printf `%` PRId64 semantics). -/
def decChars (v : Int) : List Char :=
  if v < 0 then '-' :: natDecChars v.natAbs else natDecChars v.natAbs

/-- `LogAccess::unmarshal_itoa`: digits of `|val|` written backwards from the
end of the scratch buffer, left-padded with `leading_char` up to `field_width`
characters, then a `-` sign for negatives; the function's value is the number
of characters produced. We return the produced character run (its length is
the C return value). -/
def itoaChars (val : Int) (field_width : Nat) (leading_char : Char) : List Char :=
  let digits := natDecChars val.natAbs
  let padded := List.replicate (field_width - digits.length) leading_char ++ digits
  if val < 0 then '-' :: padded else padded

/-! ## JSON escaping (`EscLookup`, `nibble`, `escape_json`) -/

/-- `EscLookup::NO_ESCAPE` — table entry meaning "no escape needed". -/
def NO_ESCAPE : Char := Char.ofNat 0

/-- `EscLookup::LONG_ESCAPE` — table entry meaning "six-character escape". -/
def LONG_ESCAPE : Char := Char.ofNat 1

/-- Content of `EscLookup::_LUT` before the short-escape entries are written:
the constructor's two loops mark every byte below `' '` (0x20) and every byte
from `'\x7f'` (0x7F) through 0xFF as `LONG_ESCAPE`. -/
def lutBase (i : Nat) : Char :=
  if i < 0x20 ∨ 0x7f ≤ i then LONG_ESCAPE else NO_ESCAPE

/-- Final content of `EscLookup::_LUT::table` (`EscLookup::result` applied to
the byte value): the eight short-escape entries overwrite the base table. -/
def escLookupResult (i : Nat) : Char :=
  if i = 0x08 then 'b'
  else if i = 0x09 then 't'
  else if i = 0x0a then 'n'
  else if i = 0x0c then 'f'
  else if i = 0x0d then 'r'
  else if i = 0x5c then '\\'
  else if i = 0x22 then '"'
  else if i = 0x2f then '/'
  else lutBase i

/-- `nibble`: lowercase hex digit for a value below 16. -/
def nibble (nib : Nat) : Char :=
  if nib ≥ 0xa then Char.ofNat (97 + (nib - 0xa)) else Char.ofNat (48 + nib)

/-- The characters `escape_json` emits for one input byte when the destination
has room (the body of the per-character branch of the loop). -/
def escapeByte (b : Nat) : List Char :=
  let ec := escLookupResult b
  if ec = NO_ESCAPE then [Char.ofNat b]
  else if ec = LONG_ESCAPE then
    ['\\', 'u', '0', '0', nibble (b / 16), nibble (b % 16)]
  else ['\\', ec]

/-- Loop of `escape_json`: iterate `i` from `first` while `i < len` over
`buf[i]` (reads past the end of `buf` yield NUL, as the C code reads the
marshal buffer's padding). In fill mode (`dest = true`) each branch first
checks that the escaped output still fits in `len` and breaks out of the loop
otherwise. Returns the final `escaped_len` counter and the bytes written. -/
def escJsonGo (dest : Bool) (buf : List Char) (len : Int) (i : Nat)
    (escaped : Int) (out : List Char) : Int × List Char :=
  if _h : (i : Int) < len then
    let c := buf.getD i nulChar
    let ec := escLookupResult c.toNat
    if ec = NO_ESCAPE then
      if dest ∧ escaped + 1 > len then (escaped, out)
      else escJsonGo dest buf len (i + 1) (escaped + 1)
        (if dest then out ++ [c] else out)
    else if ec = LONG_ESCAPE then
      if dest ∧ escaped + 6 > len then (escaped, out)
      else escJsonGo dest buf len (i + 1) (escaped + 6)
        (if dest then out ++ escapeByte c.toNat else out)
    else
      if dest ∧ escaped + 2 > len then (escaped, out)
      else escJsonGo dest buf len (i + 1) (escaped + 2)
        (if dest then out ++ escapeByte c.toNat else out)
  else (escaped, out)
  termination_by (len - i).toNat
  decreasing_by all_goals omega

/-- `escape_json(dest, buf, len)`: `dest` records whether the destination
pointer is non-null; the result is the returned `escaped_len` and the bytes
written to the destination. -/
def escape_json (dest : Bool) (buf : List Char) (len : Int) : Int × List Char :=
  escJsonGo dest buf len 0 0 []

/-! ## The string unmarshal engine (`unmarshal_str`, `unmarshal_str_json`,
`unmarshal_record`) -/

/-- `LogEscapeType` (from `LogField.h`): which decode-time escaping applies. -/
inductive LogEscapeType where
  | none
  | json
deriving DecidableEq

/-- `LogSlice`: `m_enable` says whether the slice is active; `toStrOffset`
takes the (escaped, for JSON) string length and resolves the requested
subrange, returning `(n, offset)` — the available length and the left offset.
The resolution arithmetic lives in `LogField.cc`, outside the sampled sources;
per the spec (§4.2) "the offset/length resolution is the slice's own
responsibility", so it is kept abstract as a function field. -/
structure LogSlice where
  m_enable : Bool
  toStrOffset : Int → Int × Int

/-- Result of one string-field decode: the C return value (`-1` on overrun),
the bytes written to the destination, and the new read-cursor position. -/
structure StrResult where
  ret : Int
  written : List Char
  newPos : Nat
deriving DecidableEq

/-- `unmarshal_str_json` (file-local helper): decode the NUL-terminated string
at cursor `pos` of `buf` with JSON escaping, into a destination of capacity
`len`. The cursor advances by `LogAccess::strlen(val_buf)` — the 8-byte
aligned `strlen+1` — before any capacity check. -/
def unmarshal_str_json (buf : List Char) (pos : Nat) (len : Int)
    (slice : Option LogSlice) : StrResult :=
  let tailBuf := buf.drop pos
  let val := cstr tailBuf
  let escaped_len := (escape_json false val (val.length : Int)).1
  let newPos := pos + round_strlen (val.length + 1)
  match slice with
  | some sl =>
    if sl.m_enable then
      let p := sl.toStrOffset escaped_len
      if p.1 ≤ 0 then ⟨0, [], newPos⟩
      else if p.1 ≥ len then ⟨-1, [], newPos⟩
      else
        let r := escape_json true (tailBuf.drop p.2.toNat) p.1
        ⟨r.1, r.2, newPos⟩
    else
      if escaped_len < len then ⟨escaped_len, (escape_json true tailBuf escaped_len).2, newPos⟩
      else ⟨-1, [], newPos⟩
  | Option.none =>
    if escaped_len < len then ⟨escaped_len, (escape_json true tailBuf escaped_len).2, newPos⟩
    else ⟨-1, [], newPos⟩

/-- `LogAccess::unmarshal_str`: decode the NUL-terminated string at cursor
`pos` into a destination of capacity `len`, optionally slicing, dispatching to
the JSON variant for `LOG_ESCAPE_JSON`. The cursor always advances by the
stored (aligned) width. -/
def unmarshal_str (buf : List Char) (pos : Nat) (len : Int)
    (slice : Option LogSlice) (escape_type : LogEscapeType) : StrResult :=
  if escape_type = LogEscapeType.json then unmarshal_str_json buf pos len slice
  else
    let tailBuf := buf.drop pos
    let val := cstr tailBuf
    let val_len : Int := val.length
    let newPos := pos + round_strlen (val.length + 1)
    let plain : StrResult :=
      if val_len < len then ⟨val_len, val, newPos⟩ else ⟨-1, [], newPos⟩
    match slice with
    | some sl =>
      if sl.m_enable then
        let p := sl.toStrOffset val_len
        if p.1 ≤ 0 then ⟨0, [], newPos⟩
        else if p.1 ≥ len then ⟨-1, [], newPos⟩
        else ⟨p.1, (tailBuf.drop p.2.toNat).take p.1.toNat, newPos⟩
      else plain
    | Option.none => plain

/-- `MARSHAL_RECORD_LENGTH`: the fixed encoded width of a record field. -/
def MARSHAL_RECORD_LENGTH : Nat := 32

/-- `LogAccess::unmarshal_record`: decode the NUL-terminated string at cursor
`pos`; the cursor advances by the fixed `MARSHAL_RECORD_LENGTH` regardless of
the outcome. -/
def unmarshal_record (buf : List Char) (pos : Nat) (len : Int) : StrResult :=
  let val := cstr (buf.drop pos)
  let val_len : Int := val.length
  let newPos := pos + MARSHAL_RECORD_LENGTH
  if val_len < len then ⟨val_len, val, newPos⟩ else ⟨-1, [], newPos⟩

/-! ## Integer decoders

The encoded-integer stream is a `List Int`: each element is one 8-byte
(`INK_MIN_ALIGN`) cell laid down by `marshal_int`. `unmarshal_int` returns the
cell and the advanced stream. Result triples are (C return value, bytes
written to the destination, remaining stream). -/

/-- `LogAccess::unmarshal_int`: read the next int64 and advance the cursor by
`INK_MIN_ALIGN` (one stream cell). The source asserts the buffer is non-null;
reading an exhausted stream is not reachable in any theorem below. -/
def unmarshal_int (stream : List Int) : Int × List Int :=
  (stream.headD 0, stream.tail)

/-- `LogAccess::unmarshal_int_to_str`: format the next integer as decimal
text (via `unmarshal_itoa` with its default width 0) and copy it out if it
fits strictly below the capacity, else return `-1` and write nothing. -/
def unmarshal_int_to_str (stream : List Int) (len : Int) :
    Int × List Char × List Int :=
  let r := unmarshal_int stream
  let s := itoaChars r.1 0 ' '
  if (s.length : Int) < len then ((s.length : Int), s, r.2)
  else (-1, [], r.2)

/-- The text `snprintf(dest, len, "%" PRId64 ".%03d", val / 1000, |val| % 1000)`
would produce with unbounded room: seconds (C truncating division), a dot and
the zero-padded 3-digit milliseconds. -/
def ttmsfChars (val : Int) : List Char :=
  let ms := natDecChars ((if val < 0 then -val else val) % 1000).toNat
  decChars (Int.tdiv val 1000) ++ '.' :: (List.replicate (3 - ms.length) '0' ++ ms)

/-- Bytes `snprintf(dest, size, ...)` writes for full text `s`: at most
`size - 1` characters plus the terminating NUL (nothing when `size ≤ 0`). -/
def snprintfWrites (s : List Char) (size : Int) : List Char :=
  if size ≤ 0 then [] else s.take (size.toNat - 1) ++ [nulChar]

/-- `LogAccess::unmarshal_ttmsf`: format the next integer as fractional
seconds with `snprintf`; `snprintf` truncates at the capacity and returns the
untruncated length, and the function returns `-1` when that length reaches the
capacity. -/
def unmarshal_ttmsf (stream : List Int) (len : Int) :
    Int × List Char × List Int :=
  let r := unmarshal_int stream
  let s := ttmsfChars r.1
  let val_len : Int := s.length
  if val_len ≥ len then (-1, snprintfWrites s len, r.2)
  else (val_len, snprintfWrites s len, r.2)

/-- `LogAccess::unmarshal_http_status`: like `unmarshal_int_to_str` but with
`unmarshal_itoa` field width 3 and leading `'0'`. -/
def unmarshal_http_status (stream : List Int) (len : Int) :
    Int × List Char × List Int :=
  let r := unmarshal_int stream
  let s := itoaChars r.1 3 '0'
  if (s.length : Int) < len then ((s.length : Int), s, r.2)
  else (-1, [], r.2)

/-- `LogAccess::unmarshal_http_version`: two consecutive integers (major then
minor) are decoded into the scratch buffer `val_buf[128]` after the literal
`"HTTP/"` and a `'.'` separator; a failing sub-decode propagates `-1`. The
body advances `p` by `res1` and past the `'.'` but never by `res2`, so
`val_len = p - val_buf` counts only `"HTTP/"`, the major digits and the dot:
the minor digits sit in the scratch buffer beyond `p` and are neither counted
nor copied to the destination. -/
def unmarshal_http_version (stream : List Int) (len : Int) :
    Int × List Char × List Int :=
  let http : List Char := ['H', 'T', 'T', 'P', '/']
  let r1 := unmarshal_int_to_str stream (128 - 5)
  if r1.1 < 0 then (-1, [], r1.2.2)
  else
    let r2 := unmarshal_int_to_str r1.2.2 (128 - 5 - r1.1 - 1)
    if r2.1 < 0 then (-1, [], r2.2.2)
    else
      let val := http ++ r1.2.1 ++ ['.']
      if (val.length : Int) < len then ((val.length : Int), val, r2.2.2)
      else (-1, [], r2.2.2)

/-! ## Alias-map decode (`unmarshal_with_map` and its wrappers) -/

/-- Result codes of `LogFieldAliasMap::asString`. On success the label's
character count and the written bytes are carried. -/
inductive AliasRes where
  | allOk (numChars : Int) (written : List Char)
  | bufferTooSmall
  | invalidInt

/-- Modelled from the spec: `LogFieldAliasMap::asString` (class defined in
`LogFieldAliasMap.h`, outside the sampled sources). Per §4.2 "integer code is
looked up in the relevant Alias Map; hit returns the label" — a hit copies the
label (with its NUL) when it fits the capacity and reports the label length, a
hit that does not fit reports `BUFFER_TOO_SMALL`, and an unmapped code reports
`INVALID_INT`. The map is an association list from codes to labels. -/
def aliasAsString (map : List (Int × List Char)) (code : Int) (len : Int) : AliasRes :=
  match map.find? (fun p => p.1 = code) with
  | some p =>
    if (p.2.length : Int) + 1 ≤ len then .allOk (p.2.length : Int) p.2
    else .bufferTooSmall
  | Option.none => .invalidInt

/-- `LogAccess::unmarshal_with_map`: decode `code` through the alias map; on
`INVALID_INT` with a fallback prefix `msg`, format `"msg(code)"` into the
64-byte scratch buffer and copy it out when it fits both that buffer and the
destination, else return `-1`; `BUFFER_TOO_SMALL` also yields `-1`. -/
def unmarshal_with_map (code : Int) (len : Int) (map : List (Int × List Char))
    (msg : Option (List Char)) : Int × List Char :=
  match aliasAsString map code len with
  | .allOk n w => (n, w)
  | .bufferTooSmall => (-1, [])
  | .invalidInt =>
    match msg with
    | some m =>
      let fmt := m ++ '(' :: decChars code ++ [')']
      let codeStrLen : Int := fmt.length
      if codeStrLen < 64 ∧ codeStrLen < len then (codeStrLen, fmt)
      else (-1, [])
    | Option.none => (-1, [])

/-- `LogAccess::unmarshal_hierarchy`. -/
def unmarshal_hierarchy (stream : List Int) (len : Int)
    (map : List (Int × List Char)) : (Int × List Char) × List Int :=
  let r := unmarshal_int stream
  (unmarshal_with_map r.1 len map (some "INVALID_CODE".toList), r.2)

/-- `LogAccess::unmarshal_finish_status`. -/
def unmarshal_finish_status (stream : List Int) (len : Int)
    (map : List (Int × List Char)) : (Int × List Char) × List Int :=
  let r := unmarshal_int stream
  (unmarshal_with_map r.1 len map (some "UNKNOWN_FINISH_CODE".toList), r.2)

/-- `LogAccess::unmarshal_cache_code`. -/
def unmarshal_cache_code (stream : List Int) (len : Int)
    (map : List (Int × List Char)) : (Int × List Char) × List Int :=
  let r := unmarshal_int stream
  (unmarshal_with_map r.1 len map (some "ERROR_UNKNOWN".toList), r.2)

/-- `LogAccess::unmarshal_cache_hit_miss`. -/
def unmarshal_cache_hit_miss (stream : List Int) (len : Int)
    (map : List (Int × List Char)) : (Int × List Char) × List Int :=
  let r := unmarshal_int stream
  (unmarshal_with_map r.1 len map (some "HIT_MISS_UNKNOWN".toList), r.2)

/-- `LogAccess::unmarshal_cache_write_code`. -/
def unmarshal_cache_write_code (stream : List Int) (len : Int)
    (map : List (Int × List Char)) : (Int × List Char) × List Int :=
  let r := unmarshal_int stream
  (unmarshal_with_map r.1 len map (some "UNKNOWN_CACHE_WRITE_CODE".toList), r.2)

/-! ## Marshal side

Marshal functions receive the attribute context and a `Bool` standing for a
non-null destination pointer; they return the byte length together with the
bytes written (empty in query-length mode; padding bytes between the written
NUL and the padded length are untouched outside DEBUG builds and are not part
of the written run). -/

/-- Bytes `LogAccess::marshal_str(dest, source, padded_len)` writes: a
null/empty source or a zero padded length substitutes `DEFAULT_STR`, then
`ink_strlcpy` copies into the `padded_len`-sized destination. A null source
pointer is modelled as the empty list. -/
def marshal_str_writes (source : List Char) (padded_len : Nat) : List Char :=
  let s := if source = [] ∨ padded_len = 0 then DEFAULT_STR else source
  ink_strlcpy_writes s padded_len

/-- Bytes `LogAccess::marshal_mem(dest, source, actual_len, padded_len)`
writes: a null/empty source or zero actual length substitutes `DEFAULT_STR`
(of actual length 1), then `actual_len` bytes are copied and a NUL appended. -/
def marshal_mem_writes (source : List Char) (actual_len : Nat) : List Char :=
  if source = [] ∨ actual_len = 0 then DEFAULT_STR ++ [nulChar]
  else source.take actual_len ++ [nulChar]

/-- The client-request portion of the attribute context that
`marshal_client_req_text` consumes: the request method and HTTP version. -/
structure ReqInfo where
  method : List Char
  httpMajor : Int
  httpMinor : Int

/-- The slice of `LogAccess` state these marshal routines read: the presence
of a valid client request, the arena copy of the request URL with its length,
and the PROXY-protocol authority TLV (absent when the transaction carried
none). -/
structure LogCtx where
  client_request : Option ReqInfo
  url_str : List Char
  url_len : Nat
  ppAuthority : Option (List Char)

/-- What one record (metrics/config) lookup can produce, mirroring the branch
structure of `marshal_record`: the librecords data-type probe either misses
(falling back to the new metrics registry) or yields an
integer/counter/float/string/unknown-typed record whose fetch can itself
miss. The float text is the `%e` rendering, kept abstract (floating point). -/
inductive RecValue where
  | metricsLookup (val : Option Int)
  | recInt (val : Option Int)
  | recCounter (val : Option Int)
  | recFloat (text : Option (List Char))
  | recString (text : Option (List Char))
  | recOtherType

/-- Modelled from the spec: `int64_to_str` (helper outside the sampled
sources) renders an int64 as decimal text; `num_chars` counts the trailing
NUL. -/
def int64_to_str_chars (v : Int) : List Char := decChars v

/-- `LogAccess::marshal_record`: in query-length mode return
`MARSHAL_RECORD_LENGTH` immediately; in fill mode compute the record text
(`out_buf`/`num_chars` per the branch taken), `memcpy` it (with its NUL) into
the destination and still return the fixed `MARSHAL_RECORD_LENGTH`. -/
def marshal_record (rv : RecValue) (bufPresent : Bool) : Int × List Char :=
  if !bufPresent then ((MARSHAL_RECORD_LENGTH : Int), [])
  else
    let notFound := "RECORD_NOT_FOUND".toList
    let out : List Char :=
      match rv with
      | .metricsLookup (some v) => int64_to_str_chars v
      | .metricsLookup Option.none => "INVALID_RECORD".toList
      | .recInt (some v) => int64_to_str_chars v
      | .recInt Option.none => notFound
      | .recCounter (some v) => int64_to_str_chars v
      | .recCounter Option.none => notFound
      | .recFloat (some s) => if s.length + 1 > MARSHAL_RECORD_LENGTH then "***".toList else s
      | .recFloat Option.none => notFound
      | .recString (some s) =>
        if s.length = 0 then "NULL".toList
        else if s.length + 1 = MARSHAL_RECORD_LENGTH then
          s.take (MARSHAL_RECORD_LENGTH - 4) ++ "...".toList
        else s
      | .recString Option.none => notFound
      | .recOtherType => "INVALID_MgmtType".toList
    ((MARSHAL_RECORD_LENGTH : Int), out ++ [nulChar])

/-- `LogAccess::marshal_client_req_http_method`: padded length defaults to
`INK_MIN_ALIGN` and becomes the aligned `strlen+1` for a non-empty method of a
valid request; the same value is returned in both modes. -/
def marshal_client_req_http_method (ctx : LogCtx) (bufPresent : Bool) : Int × List Char :=
  let str : List Char := match ctx.client_request with
    | some r => r.method
    | Option.none => []
  let plen : Nat :=
    match ctx.client_request with
    | some r => if r.method ≠ [] then round_strlen (r.method.length + 1) else INK_MIN_ALIGN
    | Option.none => INK_MIN_ALIGN
  ((plen : Int), if bufPresent then marshal_mem_writes str str.length else [])

/-- `LogAccess::marshal_client_req_url`: the aligned `m_client_req_url_len + 1`
in both modes. -/
def marshal_client_req_url (ctx : LogCtx) (bufPresent : Bool) : Int × List Char :=
  let len := round_strlen (ctx.url_len + 1)
  ((len : Int), if bufPresent then marshal_mem_writes ctx.url_str ctx.url_len else [])

/-- `LogAccess::marshal_client_req_http_version`: two consecutive integer
cells (`2 * INK_MIN_ALIGN` bytes) in both modes; the written cells are the
major/minor numbers (or 0/0 without a valid request). -/
def marshal_client_req_http_version (ctx : LogCtx) (bufPresent : Bool) : Int × List Int :=
  let cells : List Int := match ctx.client_request with
    | some r => [r.httpMajor, r.httpMinor]
    | Option.none => [0, 0]
  ((2 * INK_MIN_ALIGN : Nat), if bufPresent then cells else [])

/-- `LogAccess::marshal_client_req_text`: a query pass over method, URL and
version sizes the field; in fill mode the three are marshalled back-to-back
and the accumulated offset is returned instead. -/
def marshal_client_req_text (ctx : LogCtx) (bufPresent : Bool) : Int :=
  let len := (marshal_client_req_http_method ctx false).1 +
    (marshal_client_req_url ctx false).1 +
    (marshal_client_req_http_version ctx false).1
  if bufPresent then
    (marshal_client_req_http_method ctx true).1 +
      (marshal_client_req_url ctx true).1 +
      (marshal_client_req_http_version ctx true).1
  else len

/-- `LogAccess::marshal_proxy_protocol_authority`: only when the destination
is non-null and the authority TLV is present does it marshal the authority and
return its (unaligned) size; in every other case — including query-length mode
with the TLV present — it returns 0. -/
def marshal_proxy_protocol_authority (ctx : LogCtx) (bufPresent : Bool) : Int × List Char :=
  if bufPresent then
    match ctx.ppAuthority with
    | some a => ((a.length : Int), marshal_str_writes a a.length)
    | Option.none => (0, [])
  else (0, [])

/-! ## URL setters (`set_client_req_url` and friends)

The stored strings are `Option (List Char)`: `Option.none` models a string
pointer that was never populated (`nullptr`). The `..._len` fields are the
stored length members. A setter returns `Option UrlState`: `Option.none`
models the undefined null-pointer write the C code performs when it copies
into a string that was never allocated. Supplied buffers carry their claimed
length `len` alongside; the effective stored text after a copy of `n` bytes is
the first `n` bytes of the supplied buffer. -/

/-- The URL-string members of `LogAccess` touched by the setters. -/
structure UrlState where
  url_str : Option (List Char)
  url_len : Int
  url_canon_str : Option (List Char)
  url_canon_len : Int
  unmapped_canon_str : Option (List Char)
  unmapped_canon_len : Int
  unmapped_path_str : Option (List Char)
  unmapped_path_len : Int
  unmapped_host_str : Option (List Char)
  unmapped_host_len : Int
deriving DecidableEq

/-- `LogAccess::set_client_req_url`: guarded only on `buf`; clamps
`m_client_req_url_len` to `min len old` and `ink_strlcpy`s into
`m_client_req_url_str` unconditionally (undefined when that string was never
populated). -/
def set_client_req_url (st : UrlState) (buf : Option (List Char)) (len : Int) :
    Option UrlState :=
  match buf with
  | Option.none => some st
  | some b =>
    match st.url_str with
    | Option.none => Option.none
    | some _ =>
      let newLen := min len st.url_len
      some { st with url_len := newLen, url_str := some (b.take newLen.toNat) }

/-- `LogAccess::set_client_req_url_canon`: same shape as `set_client_req_url`
for the canonical URL members. -/
def set_client_req_url_canon (st : UrlState) (buf : Option (List Char)) (len : Int) :
    Option UrlState :=
  match buf with
  | Option.none => some st
  | some b =>
    match st.url_canon_str with
    | Option.none => Option.none
    | some _ =>
      let newLen := min len st.url_canon_len
      some { st with url_canon_len := newLen, url_canon_str := some (b.take newLen.toNat) }

/-- `LogAccess::set_client_req_unmapped_url_canon`: guarded on `buf` *and* the
stored string being populated; clamps and `memcpy`s (the stored string is not
necessarily NUL-terminated). -/
def set_client_req_unmapped_url_canon (st : UrlState) (buf : Option (List Char))
    (len : Int) : Option UrlState :=
  match buf, st.unmapped_canon_str with
  | some b, some _ =>
    let newLen := min len st.unmapped_canon_len
    some { st with unmapped_canon_len := newLen,
                   unmapped_canon_str := some (b.take newLen.toNat) }
  | _, _ => some st

/-- `LogAccess::set_client_req_unmapped_url_path`: guarded on `buf` and the
stored string; clamps and `ink_strlcpy`s. -/
def set_client_req_unmapped_url_path (st : UrlState) (buf : Option (List Char))
    (len : Int) : Option UrlState :=
  match buf, st.unmapped_path_str with
  | some b, some _ =>
    let newLen := min len st.unmapped_path_len
    some { st with unmapped_path_len := newLen,
                   unmapped_path_str := some (b.take newLen.toNat) }
  | _, _ => some st

/-- `LogAccess::set_client_req_unmapped_url_host`: guarded on `buf` and the
stored string; clamps and `ink_strlcpy`s. -/
def set_client_req_unmapped_url_host (st : UrlState) (buf : Option (List Char))
    (len : Int) : Option UrlState :=
  match buf, st.unmapped_host_str with
  | some b, some _ =>
    let newLen := min len st.unmapped_host_len
    some { st with unmapped_host_len := newLen,
                   unmapped_host_str := some (b.take newLen.toNat) }
  | _, _ => some st

/-! ## Format-string resolution (`resolve_logfield_string`) -/

/-- Read a placeholder name up to the closing `'>'`; fails (no placeholder)
when the string ends before a `'>'`. Returns the name and the remainder after
the `'>'`. -/
def grabName : List Char → Option (List Char × List Char)
  | [] => Option.none
  | c :: t => if c = '>' then some ([], t)
    else match grabName t with
      | some (n, r) => some (c :: n, r)
      | Option.none => Option.none

/-- After `grabName` succeeds, the remainder is strictly shorter. -/
theorem grabName_rest_lt : ∀ l n r, grabName l = some (n, r) → r.length < l.length := by
  intro l
  induction l with
  | nil => intro n r h; simp [grabName] at h
  | cons c t ih =>
    intro n r h
    simp only [grabName] at h
    by_cases hc : c = '>'
    · simp [hc] at h
      simp [← h.2]
    · simp only [hc, if_false] at h
      cases hg : grabName t with
      | none => rw [hg] at h; simp at h
      | some p =>
        rw [hg] at h
        simp at h
        have := ih p.1 p.2 (by rw [hg])
        have hr : r = p.2 := by
          cases p; simp at h; exact h.2.symm
        subst hr
        simp
        omega

/-- Modelled from the spec: the placeholder scan of
`LogFormat::parse_format_string` (defined in `LogFormat.cc`, outside the
sampled sources). Per §6 the format string is "a mixture of literal text and
named field placeholders (e.g., `%<client_req_url_canon>`)"; the scan collects
the name of every `%<...>` placeholder in order, and the requested field count
`n_fields` is the number of placeholders found. -/
def parseFmtAux : Nat → List Char → List (List Char)
  | 0, _ => []
  | fuel + 1, cs =>
    match cs with
    | [] => []
    | c :: t =>
      if c = '%' then
        match t with
        | c2 :: t2 =>
          if c2 = '<' then
            match grabName t2 with
            | some (n, r) => n :: parseFmtAux fuel r
            | Option.none => []
          else parseFmtAux fuel (c2 :: t2)
        | [] => []
      else parseFmtAux fuel t

/-- The placeholder scan with enough fuel for the whole string: every
recursive step of `parseFmtAux` consumes at least one character, so
`cs.length` steps always reach the end of the scan. -/
def parse_format_string (cs : List Char) : List (List Char) :=
  parseFmtAux cs.length cs

/-- Modelled from the spec: `LogFormat::parse_symbol_string` (outside the
sampled sources) resolves each requested symbol against the field registry and
reports how many resolved; per §4.3 "symbol parsing failures (unknown field
name) cause ... a count mismatch between requested and resolved fields". The
registry is the list of known field symbols. -/
def parse_symbol_string (registry : List (List Char)) (fields : List (List Char)) : Nat :=
  (fields.filter (fun f => registry.contains f)).length

/-- `resolve_logfield_string(context, format_str)`: reject a null context or
format; with zero placeholders return a verbatim copy of the format string;
with a field-count mismatch reject the whole string (`nullptr`); otherwise run
the marshal/unmarshal pass (`resolveCore`, kept abstract — it covers
`marshal_len`/`marshal`/`resolve_custom_entry`, whose empty result also yields
`nullptr`). -/
def resolve_logfield_string (registry : List (List Char))
    (resolveCore : List Char → List (List Char) → Option (List Char))
    (contextPresent : Bool) (format_str : Option (List Char)) : Option (List Char) :=
  if !contextPresent then Option.none
  else match format_str with
  | Option.none => Option.none
  | some f =>
    let fields := parse_format_string f
    let n_fields := fields.length
    if n_fields = 0 then some f
    else
      let field_count := parse_symbol_string registry fields
      if field_count ≠ n_fields then Option.none
      else resolveCore f fields

/-! ## Helper lemmas -/

theorem natDecAux_length_ge_acc (fuel : Nat) :
    ∀ (n : Nat) (acc : List Char), acc.length ≤ (natDecAux fuel n acc).length := by
  induction fuel with
  | zero => intro n acc; simp [natDecAux]
  | succ f ih =>
    intro n acc
    simp only [natDecAux]
    split
    · simp
    · calc acc.length ≤ (digitChar (n % 10) :: acc).length := by simp
        _ ≤ _ := ih (n / 10) (digitChar (n % 10) :: acc)

theorem natDecChars_length_pos (n : Nat) : 1 ≤ (natDecChars n).length := by
  simp only [natDecChars, natDecAux]
  split
  · simp
  · have := natDecAux_length_ge_acc n (n / 10) [digitChar (n % 10)]
    simpa using this

theorem decChars_length_pos (v : Int) : 1 ≤ (decChars v).length := by
  simp only [decChars]
  split
  · simp
  · exact natDecChars_length_pos _

theorem ttmsfChars_length_ge (v : Int) : 5 ≤ (ttmsfChars v).length := by
  simp only [ttmsfChars]
  have h1 := decChars_length_pos (Int.tdiv v 1000)
  have h2 := natDecChars_length_pos ((if v < 0 then -v else v) % 1000).toNat
  simp only [List.length_append, List.length_cons, List.length_replicate]
  omega

theorem natDecAux_length_le (k : Nat) :
    ∀ (fuel n : Nat) (acc : List Char), n < 10 ^ (k + 1) →
      (natDecAux fuel n acc).length ≤ (k + 1) + acc.length := by
  induction k with
  | zero =>
    intro fuel n acc h
    cases fuel with
    | zero => simp [natDecAux]
    | succ f =>
      simp only [natDecAux]
      rw [if_pos (by simpa using h)]
      simp
      omega
  | succ k ih =>
    intro fuel n acc h
    cases fuel with
    | zero => simp [natDecAux]
    | succ f =>
      simp only [natDecAux]
      split
      · simp; omega
      · have hn : n / 10 < 10 ^ (k + 1) := by
          rw [Nat.div_lt_iff_lt_mul (by norm_num)]
          calc n < 10 ^ (k + 2) := h
            _ = 10 ^ (k + 1) * 10 := by ring
        have := ih f (n / 10) (digitChar (n % 10) :: acc) hn
        simp at this ⊢
        omega

theorem natDecChars_length_le (k n : Nat) (h : n < 10 ^ (k + 1)) :
    (natDecChars n).length ≤ k + 1 := by
  simpa using natDecAux_length_le k (n + 1) n [] h

/-- Any int64-ranged value renders as at most 20 characters (19 digits and a
possible sign). -/
theorem decChars_length_le_20 (v : Int) (h1 : -(2 ^ 63) ≤ v) (h2 : v < 2 ^ 63) :
    (decChars v).length ≤ 20 := by
  have hn : v.natAbs < 10 ^ 19 := by
    have hb : (v.natAbs : Int) ≤ 2 ^ 63 := by
      rcases Int.natAbs_eq v with h | h <;> omega
    have : v.natAbs ≤ 2 ^ 63 := by exact_mod_cast hb
    calc v.natAbs ≤ 2 ^ 63 := this
      _ < 10 ^ 19 := by norm_num
  have hd : (natDecChars v.natAbs).length ≤ 19 := natDecChars_length_le 18 v.natAbs hn
  simp only [decChars]
  split
  · simp
    omega
  · omega

/-- `unmarshal_itoa` with its default field width 0 is plain decimal
rendering. -/
theorem itoaChars_zero_width (v : Int) (c : Char) : itoaChars v 0 c = decChars v := by
  simp [itoaChars, decChars]

theorem filter_length_lt {α : Type} (p : α → Bool) :
    ∀ l : List α, (∃ a ∈ l, p a = false) → (l.filter p).length < l.length := by
  intro l
  induction l with
  | nil => rintro ⟨a, ha, _⟩; simp at ha
  | cons x xs ih =>
    rintro ⟨a, ha, hpa⟩
    rcases List.mem_cons.mp ha with h | h
    · subst h
      simp only [List.filter_cons, hpa]
      have := List.length_filter_le p xs
      simp
      omega
    · by_cases hx : p x
      · simp only [List.filter_cons, hx, if_true]
        have := ih ⟨a, h, hpa⟩
        simp
        omega
      · simp only [List.filter_cons, Bool.not_eq_true] at hx ⊢
        rw [hx]
        have := List.length_filter_le p xs
        simp
        omega

/-! ## Claims -/

/-- A context whose transaction carried a PROXY-protocol authority TLV
(`"example.com"`, 11 bytes) and no valid client request. -/
def ppAuthorityCtx : LogCtx :=
  { client_request := Option.none
    url_str := []
    url_len := 0
    ppAuthority := some "example.com".toList }

/-- C1: the two-call length agreement holds for `marshal_record` (both modes
return the fixed `MARSHAL_RECORD_LENGTH`) and for `marshal_client_req_text`
(fill-mode offsets re-add the same per-part lengths), but it FAILS for
`marshal_proxy_protocol_authority`: with an authority TLV present the
query-length call (null destination) returns 0 while the fill call writes the
authority and returns its size (11 for `"example.com"`). -/
theorem marshal_two_call_length_agreement_status :
    (∀ rv : RecValue, (marshal_record rv false).1 = 32 ∧ (marshal_record rv true).1 = 32)
      ∧ (∀ ctx : LogCtx, marshal_client_req_text ctx false = marshal_client_req_text ctx true)
      ∧ (marshal_proxy_protocol_authority ppAuthorityCtx false).1 = 0
      ∧ (marshal_proxy_protocol_authority ppAuthorityCtx true).1 = 11 := by
  refine ⟨fun rv => ⟨rfl, rfl⟩, fun ctx => rfl, rfl, by decide⟩

/-- C5 counterexample: byte `0x80` is not below `0x20` and is not `0x7F`, so
per the claim it should pass through unchanged — but the lookup-table
constructor marks every byte from `0x7F` through `0xFF` as long-escape, so the
code emits the six-character escape for it. -/
theorem escape_high_byte_does_not_pass_through :
    escapeByte 0x80 = ['\\', 'u', '0', '0', '8', '0']
      ∧ escapeByte 0x80 ≠ [Char.ofNat 0x80] := by decide

/-- Lowercase hexadecimal digit (independent rendering used to state the
amended escape table). -/
def hexDigitLower (d : Nat) : Char := "0123456789abcdef".toList.getD d '?'

/-- The amended per-byte escape map: the eight short escapes; `\u00XX` with
lowercase hex digits for every other byte below `0x20` AND for every byte at
or above `0x7F` (not just `0x7F` itself); pass-through only for the remaining
bytes `0x20`–`0x7E`. -/
def escSpecByte (b : Nat) : List Char :=
  if b = 0x08 then ['\\', 'b']
  else if b = 0x09 then ['\\', 't']
  else if b = 0x0a then ['\\', 'n']
  else if b = 0x0c then ['\\', 'f']
  else if b = 0x0d then ['\\', 'r']
  else if b = 0x5c then ['\\', '\\']
  else if b = 0x22 then ['\\', '"']
  else if b = 0x2f then ['\\', '/']
  else if b < 0x20 ∨ 0x7f ≤ b then
    ['\\', 'u', '0', '0', hexDigitLower (b / 16), hexDigitLower (b % 16)]
  else [Char.ofNat b]

set_option maxRecDepth 4096 in
/-- C5 amended: for every byte, the JSON escaping emits the two-character
short escape for the eight designated bytes, the six-character `\u00XX`
escape (lowercase hex) for every other byte below `0x20` and for every byte
`0x7F`–`0xFF`, and passes bytes `0x20`–`0x7E` through unchanged. -/
theorem json_escape_table_amended (b : Nat) (h : b < 256) :
    escapeByte b = escSpecByte b := by
  revert b h
  decide

/-- C5 amended, witnessed at the pass-through byte `0x41` (`'A'`). -/
theorem json_escape_table_amended_witness : escapeByte 0x41 = escSpecByte 0x41 :=
  json_escape_table_amended 0x41 (by decide)

/-- C7: decoding the encoded integer 42 through the HTTP-status decoder with
destination capacity above 3 yields exactly the text `"042"` (zero-padded to
field width 3) and returns 3. -/
theorem http_status_42_renders_042 (len : Int) (rest : List Int) (h : 3 < len) :
    unmarshal_http_status (42 :: rest) len = (3, "042".toList, rest) := by
  have hs : itoaChars 42 3 '0' = "042".toList := by decide
  simp only [unmarshal_http_status, unmarshal_int, List.headD, List.tail_cons, hs]
  rw [if_pos (by simpa using h)]
  simp

/-- C7 witness: capacity 10. -/
theorem http_status_42_renders_042_witness :
    unmarshal_http_status [42] 10 = (3, "042".toList, []) :=
  http_status_42_renders_042 10 [] (by norm_num)

/-- C2: decoding into a destination whose capacity is one byte short of the
field's natural decoded length returns the `-1` sentinel for `unmarshal_str`
(which then writes nothing), for `unmarshal_ttmsf` (whose `snprintf` writes
only a NUL-terminated truncation that stays strictly inside the declared
capacity) and for `unmarshal_int_to_str` (which writes nothing); no byte at or
beyond the declared capacity is ever written. -/
theorem short_destination_returns_overrun_sentinel :
    (∀ (buf : List Char) (pos : Nat),
      unmarshal_str buf pos (((cstr (buf.drop pos)).length : Int) - 1)
          Option.none LogEscapeType.none
        = ⟨-1, [], pos + round_strlen ((cstr (buf.drop pos)).length + 1)⟩)
      ∧ (∀ (v : Int) (rest : List Int),
        (unmarshal_ttmsf (v :: rest) (((ttmsfChars v).length : Int) - 1)).1 = -1
          ∧ (((unmarshal_ttmsf (v :: rest) (((ttmsfChars v).length : Int) - 1)).2.1.length : Int)
              ≤ ((ttmsfChars v).length : Int) - 1))
      ∧ (∀ (v : Int) (rest : List Int),
        unmarshal_int_to_str (v :: rest) (((itoaChars v 0 ' ').length : Int) - 1)
          = (-1, [], rest)) := by
  refine ⟨?_, ?_, ?_⟩
  · intro buf pos
    simp only [unmarshal_str, reduceCtorEq, reduceIte]
    rw [if_neg (by omega)]
  · intro v rest
    have h5 := ttmsfChars_length_ge v
    constructor
    · simp only [unmarshal_ttmsf, unmarshal_int, List.headD, List.tail_cons]
      rw [if_pos (by omega)]
    · simp only [unmarshal_ttmsf, unmarshal_int, List.headD, List.tail_cons]
      rw [if_pos (by omega)]
      simp only [snprintfWrites]
      rw [if_neg (by omega)]
      simp only [List.length_append, List.length_take, List.length_singleton]
      omega
  · intro v rest
    simp only [unmarshal_int_to_str, unmarshal_int, List.headD, List.tail_cons]
    rw [if_neg (by omega)]

/-- The encoded buffer of a string field holding `"abcdefgh"`: the eight
characters, the NUL terminator and the padding to the 16-byte aligned width. -/
def sliceBuf : List Char := "abcdefgh".toList ++ List.replicate 8 nulChar

/-- C6: decoding the string field `"abcdefgh"` with an enabled slice that
resolves to offset 2 and length 3 writes exactly `"cde"` and returns 3 when
the destination capacity exceeds 3; and any enabled slice whose resolved
length is non-positive makes the decode return 0 (an empty result, not the
`-1` error sentinel). -/
theorem slice_extraction_writes_requested_subrange :
    (∀ (sl : LogSlice) (len : Int),
      sl.m_enable = true → sl.toStrOffset 8 = (3, 2) → 3 < len →
      unmarshal_str sliceBuf 0 len (some sl) LogEscapeType.none
        = ⟨3, "cde".toList, 16⟩)
      ∧ (∀ (buf : List Char) (pos : Nat) (sl : LogSlice) (len : Int),
        sl.m_enable = true →
        (sl.toStrOffset ((cstr (buf.drop pos)).length : Int)).1 ≤ 0 →
        (unmarshal_str buf pos len (some sl) LogEscapeType.none).ret = 0) := by
  constructor
  · intro sl len h1 h2 h3
    have hc : cstr (sliceBuf.drop 0) = "abcdefgh".toList := by decide
    simp only [unmarshal_str, reduceCtorEq, reduceIte, hc, h1, if_true]
    have hl : (("abcdefgh".toList.length : Nat) : Int) = 8 := by decide
    rw [hl, h2]
    rw [if_neg (by omega), if_neg (by omega)]
    decide
  · intro buf pos sl len h1 h2
    simp only [unmarshal_str, reduceCtorEq, reduceIte, h1, if_true]
    rw [if_pos h2]

/-- C6 witness: a concrete enabled slice resolving to `(3, 2)`, capacity 8. -/
theorem slice_extraction_writes_requested_subrange_witness :
    unmarshal_str sliceBuf 0 8 (some ⟨true, fun _ => (3, 2)⟩) LogEscapeType.none
      = ⟨3, "cde".toList, 16⟩ :=
  slice_extraction_writes_requested_subrange.1 ⟨true, fun _ => (3, 2)⟩ 8 rfl rfl
    (by norm_num)

/-- C3: a format string with a placeholder whose name is not a registered
field symbol makes `resolve_logfield_string` detect the mismatch between the
requested and the successfully parsed field counts and return null (never a
partial record, whatever the marshal/unmarshal core would produce); a format
string with zero placeholders is returned verbatim. -/
theorem resolve_logfield_string_rejects_unknown_fields
    (registry : List (List Char))
    (core : List Char → List (List Char) → Option (List Char))
    (fmt : List Char) :
    ((∃ name ∈ parse_format_string fmt, registry.contains name = false) →
      resolve_logfield_string registry core true (some fmt) = Option.none)
      ∧ (parse_format_string fmt = [] →
        resolve_logfield_string registry core true (some fmt) = some fmt) := by
  constructor
  · rintro ⟨name, hmem, hnc⟩
    have hlt : ((parse_format_string fmt).filter (fun f => registry.contains f)).length
        < (parse_format_string fmt).length :=
      filter_length_lt _ _ ⟨name, hmem, hnc⟩
    simp only [resolve_logfield_string, Bool.not_true, Bool.false_eq_true, if_false,
      parse_symbol_string]
    rw [if_neg (by omega), if_pos (by omega)]
  · intro h
    simp [resolve_logfield_string, h]

/-- C3 witness: registry `{"cqts"}`; the format `"%<bogus_field>"` is
rejected, the placeholder-free format `"no fields here"` is copied verbatim
(with an arbitrary resolve core). -/
theorem resolve_logfield_string_rejects_unknown_fields_witness :
    resolve_logfield_string ["cqts".toList] (fun _ _ => Option.none) true
        (some "%<bogus_field>".toList) = Option.none
      ∧ resolve_logfield_string ["cqts".toList] (fun _ _ => Option.none) true
        (some "no fields here".toList) = some "no fields here".toList :=
  ⟨(resolve_logfield_string_rejects_unknown_fields _ _ _).1
      ⟨"bogus_field".toList, by decide, by decide⟩,
    (resolve_logfield_string_rejects_unknown_fields _ _ _).2 (by decide)⟩

/-- A `LogAccess` whose URL strings were never populated (`init` never ran on
a valid client request): every string member is still null. -/
def unsetUrlState : UrlState :=
  { url_str := Option.none, url_len := 0
    url_canon_str := Option.none, url_canon_len := 0
    unmapped_canon_str := Option.none, unmapped_canon_len := 0
    unmapped_path_str := Option.none, unmapped_path_len := 0
    unmapped_host_str := Option.none, unmapped_host_len := 0 }

/-- C10 counterexample: with the request URL never populated,
`set_client_req_url` called with a non-null buffer is NOT a no-op — it copies
through the null string pointer (undefined behaviour, modelled as
`Option.none`) instead of leaving the state unchanged; likewise
`set_client_req_url_canon`. Only the three unmapped setters guard on the
stored pointer. -/
theorem set_client_req_url_unpopulated_not_noop :
    set_client_req_url unsetUrlState (some ['x']) 1 ≠ some unsetUrlState
      ∧ set_client_req_url unsetUrlState (some ['x']) 1 = Option.none
      ∧ set_client_req_url_canon unsetUrlState (some ['x']) 1 = Option.none := by
  decide

/-- C10 amended: every URL setter is a no-op on a null buffer; the three
unmapped setters are additionally no-ops when their stored string was never
populated; and on a populated target every setter clamps the stored length to
`min(supplied, previous)` — never increasing it — and stores the
correspondingly truncated bytes. `set_client_req_url` and
`set_client_req_url_canon` perform the write unconditionally, so for them the
populated-target hypothesis is required (the unpopulated case is the
counterexample above). -/
theorem url_setters_clamp_and_guard :
    (∀ (st : UrlState) (len : Int),
      set_client_req_url st Option.none len = some st
        ∧ set_client_req_url_canon st Option.none len = some st
        ∧ set_client_req_unmapped_url_canon st Option.none len = some st
        ∧ set_client_req_unmapped_url_path st Option.none len = some st
        ∧ set_client_req_unmapped_url_host st Option.none len = some st)
      ∧ (∀ (st : UrlState) (b : List Char) (len : Int),
        (st.unmapped_canon_str = Option.none →
          set_client_req_unmapped_url_canon st (some b) len = some st)
          ∧ (st.unmapped_path_str = Option.none →
            set_client_req_unmapped_url_path st (some b) len = some st)
          ∧ (st.unmapped_host_str = Option.none →
            set_client_req_unmapped_url_host st (some b) len = some st))
      ∧ (∀ (st : UrlState) (b s : List Char) (len : Int),
        (st.url_str = some s →
          set_client_req_url st (some b) len
            = some { st with url_len := min len st.url_len,
                             url_str := some (b.take (min len st.url_len).toNat) })
          ∧ (st.url_canon_str = some s →
            set_client_req_url_canon st (some b) len
              = some { st with url_canon_len := min len st.url_canon_len,
                               url_canon_str :=
                                 some (b.take (min len st.url_canon_len).toNat) })
          ∧ (st.unmapped_canon_str = some s →
            set_client_req_unmapped_url_canon st (some b) len
              = some { st with unmapped_canon_len := min len st.unmapped_canon_len,
                               unmapped_canon_str :=
                                 some (b.take (min len st.unmapped_canon_len).toNat) })
          ∧ (st.unmapped_path_str = some s →
            set_client_req_unmapped_url_path st (some b) len
              = some { st with unmapped_path_len := min len st.unmapped_path_len,
                               unmapped_path_str :=
                                 some (b.take (min len st.unmapped_path_len).toNat) })
          ∧ (st.unmapped_host_str = some s →
            set_client_req_unmapped_url_host st (some b) len
              = some { st with unmapped_host_len := min len st.unmapped_host_len,
                               unmapped_host_str :=
                                 some (b.take (min len st.unmapped_host_len).toNat) })) := by
  refine ⟨?_, ?_, ?_⟩
  · intro st len
    refine ⟨rfl, rfl, ?_, ?_, ?_⟩ <;>
      simp [set_client_req_unmapped_url_canon, set_client_req_unmapped_url_path,
        set_client_req_unmapped_url_host]
  · intro st b len
    refine ⟨fun h => ?_, fun h => ?_, fun h => ?_⟩ <;>
      simp [set_client_req_unmapped_url_canon, set_client_req_unmapped_url_path,
        set_client_req_unmapped_url_host, h]
  · intro st b s len
    refine ⟨fun h => ?_, fun h => ?_, fun h => ?_, fun h => ?_, fun h => ?_⟩ <;>
      simp [set_client_req_url, set_client_req_url_canon,
        set_client_req_unmapped_url_canon, set_client_req_unmapped_url_path,
        set_client_req_unmapped_url_host, h]

/-- C10 amended, witnessed: a populated request URL `"abc"` (length 3) set
with a buffer of claimed length 1 clamps the stored length to 1 and stores
`"x"`; and a null buffer is a no-op on the same state. -/
theorem url_setters_clamp_and_guard_witness :
    set_client_req_url
        { unsetUrlState with url_str := some "abc".toList, url_len := 3 }
        (some ['x', 'y']) 1
      = some { unsetUrlState with url_str := some ['x'], url_len := 1 }
      ∧ set_client_req_url
        { unsetUrlState with url_str := some "abc".toList, url_len := 3 }
        Option.none 5
      = some { unsetUrlState with url_str := some "abc".toList, url_len := 3 } := by
  constructor
  · have h := (url_setters_clamp_and_guard.2.2
      { unsetUrlState with url_str := some "abc".toList, url_len := 3 }
      ['x', 'y'] "abc".toList 1).1 rfl
    rw [h]
    decide
  · exact (url_setters_clamp_and_guard.1
      { unsetUrlState with url_str := some "abc".toList, url_len := 3 } 5).1

/-- C4: for any alias map and any int64-ranged code with no entry,
`unmarshal_with_map` with one of the wrappers' fallback prefixes (all at most
24 characters, so the internal 64-byte scratch buffer never binds) yields
exactly the literal `"<prefix>(C)"` whenever it fits the destination capacity
and the `-1` sentinel otherwise; a mapped code yields its label (capacity
permitting); and each of the five wrappers is `unmarshal_with_map` on the
next decoded integer with its own prefix. -/
theorem alias_fallback_is_prefix_code (map : List (Int × List Char)) (code len : Int)
    (msg : List Char) (h1 : -(2 ^ 63) ≤ code) (h2 : code < 2 ^ 63)
    (h3 : msg.length ≤ 24) :
    (map.find? (fun p => p.1 = code) = Option.none →
      unmarshal_with_map code len map (some msg)
        = (if ((msg ++ '(' :: decChars code ++ [')']).length : Int) < len
            then (((msg ++ '(' :: decChars code ++ [')']).length : Int),
              msg ++ '(' :: decChars code ++ [')'])
            else (-1, [])))
      ∧ (∀ p, map.find? (fun q => q.1 = code) = some p →
        (p.2.length : Int) + 1 ≤ len →
        unmarshal_with_map code len map (some msg) = ((p.2.length : Int), p.2))
      ∧ (∀ rest : List Int,
        unmarshal_cache_code (code :: rest) len map
          = (unmarshal_with_map code len map (some "ERROR_UNKNOWN".toList), rest)
        ∧ unmarshal_hierarchy (code :: rest) len map
          = (unmarshal_with_map code len map (some "INVALID_CODE".toList), rest)
        ∧ unmarshal_finish_status (code :: rest) len map
          = (unmarshal_with_map code len map (some "UNKNOWN_FINISH_CODE".toList), rest)
        ∧ unmarshal_cache_hit_miss (code :: rest) len map
          = (unmarshal_with_map code len map (some "HIT_MISS_UNKNOWN".toList), rest)
        ∧ unmarshal_cache_write_code (code :: rest) len map
          = (unmarshal_with_map code len map (some "UNKNOWN_CACHE_WRITE_CODE".toList), rest)) := by
  have hdec := decChars_length_le_20 code h1 h2
  refine ⟨?_, ?_, ?_⟩
  · intro hfind
    simp only [unmarshal_with_map, aliasAsString, hfind]
    have hfmt : (((msg ++ '(' :: decChars code ++ [')']).length : Int)) < 64 := by
      simp only [List.length_append, List.length_cons, List.length_singleton,
        List.length_nil]
      push_cast
      omega
    by_cases hl : (((msg ++ '(' :: decChars code ++ [')']).length : Int)) < len
    · rw [if_pos ⟨hfmt, hl⟩, if_pos hl]
    · rw [if_neg (by tauto), if_neg hl]
  · intro p hfind hcap
    simp only [unmarshal_with_map, aliasAsString, hfind]
    rw [if_pos hcap]
  · intro rest
    exact ⟨rfl, rfl, rfl, rfl, rfl⟩

/-- C4 witness: code 7 is unmapped in `{3 ↦ "HIT"}`; with the cache-code
prefix and capacity 64 the decode yields `"ERROR_UNKNOWN(7)"` (16 chars). -/
theorem alias_fallback_is_prefix_code_witness :
    unmarshal_with_map 7 64 [(3, "HIT".toList)] (some "ERROR_UNKNOWN".toList)
      = (16, "ERROR_UNKNOWN(7)".toList) := by
  have h := (alias_fallback_is_prefix_code [(3, "HIT".toList)] 7 64
    "ERROR_UNKNOWN".toList (by decide) (by decide) (by decide)).1 (by decide)
  rw [h]
  decide

/-- C8: decoding the version pair (major 1, minor 1) with ample destination
capacity writes only `"HTTP/1."` and returns 7 — the minor-version digits are
decoded (the cursor consumes both integer cells) but, because the scratch
pointer is never advanced past them, they are excluded from the copied text
and the returned count, contradicting the claimed `"HTTP/1.1"` (8 chars). -/
theorem http_version_drops_minor_digits :
    unmarshal_http_version [1, 1] 9 = (7, "HTTP/1.".toList, [])
      ∧ "HTTP/1.".toList ≠ "HTTP/1.1".toList := by decide

/-- C9: for every string decode — plain, sliced or JSON-escaped — the read
cursor advances by exactly the stored string's aligned `strlen+1` width, and
for every record decode by exactly `MARSHAL_RECORD_LENGTH`, independent of
the destination capacity, the slice resolution and the success/overrun/empty
outcome. -/
theorem cursor_advance_depends_only_on_encoding :
    (∀ (buf : List Char) (pos : Nat) (len : Int) (slice : Option LogSlice)
        (esc : LogEscapeType),
      (unmarshal_str buf pos len slice esc).newPos
        = pos + round_strlen ((cstr (buf.drop pos)).length + 1))
      ∧ (∀ (buf : List Char) (pos : Nat) (len : Int),
        (unmarshal_record buf pos len).newPos = pos + MARSHAL_RECORD_LENGTH) := by
  constructor
  · intro buf pos len slice esc
    cases esc <;> cases slice <;>
      simp only [unmarshal_str, unmarshal_str_json, reduceCtorEq, if_false, if_true,
        reduceIte] <;>
      (repeat' split) <;> rfl
  · intro buf pos len
    simp only [unmarshal_record]
    split <;> rfl

end ATSLog
